import Mathlib

/-!
Shallow embedding of the PhishGuard ML API core (app.py, database_utils.py,
models.py) and proofs about its specification claims.

Conventions of the embedding:
* Python strings are `List Char`; `str.strip` / `str.lower` are embedded for
  their ASCII behaviour (`pyStrip`, `pyLower`), which is all the code relies on.
* Python floats are embedded as exact rationals (`ℚ`); every numeric literal
  used by the code (0.25, 0.5, 0.75, thresholds, bin edges) is exactly
  representable, and the spec's invariants are stated in exact arithmetic.
  Decimal literals are written as `mkRat` fractions with the same exact value
  (`mkRat 3 4` for `0.75`, `mkRat 1 2` for `0.5`, and so on) so that concrete
  instances evaluate inside the kernel.
* `round(x, n)` is embedded as round-half-to-even on rationals (`pyRound`).
* The SQLAlchemy tables become plain structures; the database session becomes
  an explicit `DBState` value threaded through the request handlers; the
  per-user `UserStatistics` table is an association list keyed by `user_id`.
* Wall-clock fields (`created_at`, `last_scan_date`, `prediction_time_ms`,
  `feedback_timestamp`, `updated_at`) are not represented: no claim depends on
  them and they are pure measurements of real time.
* The trained model artifact is opaque in the source (`predict_proba`); it is
  embedded as an optional function `Option (List Char → ℚ)` so that the
  model-backed and heuristic paths of `classify_message` are both covered.
-/

namespace PhishGuard

/-! ## Python string primitives -/

/-- Whitespace recognised by Python `str.strip()` (the ASCII cases:
space, tab, newline, carriage return, vertical tab, form feed). -/
def isPySpace (c : Char) : Bool :=
  c.toNat = 32 || c.toNat = 9 || c.toNat = 10 || c.toNat = 13 ||
  c.toNat = 11 || c.toNat = 12

/-- Python `str.strip()`: drop leading and trailing whitespace. -/
def pyStrip (l : List Char) : List Char :=
  ((l.dropWhile isPySpace).reverse.dropWhile isPySpace).reverse

/-- Python `str.lower()` on one character (ASCII case). -/
def pyLower (c : Char) : Char :=
  if 65 ≤ c.toNat ∧ c.toNat ≤ 90 then Char.ofNat (c.toNat + 32) else c

/-- Does the list start with the given pattern? -/
def startsWithList : List Char → List Char → Bool
  | [], _ => true
  | _ :: _, [] => false
  | p :: ps, c :: cs => p = c && startsWithList ps cs

/-- Python's `pat in s` substring test. -/
def substringOf (pat : List Char) : List Char → Bool
  | [] => startsWithList pat []
  | c :: cs => startsWithList pat (c :: cs) || substringOf pat cs

/-- Python banker's rounding of a rational to the nearest integer
(round-half-to-even, as `round` does on floats whose value is exact). -/
def roundHalfEven (q : ℚ) : ℤ :=
  let f := ⌊q⌋
  if q - f < mkRat 1 2 then f
  else if q - f > mkRat 1 2 then f + 1
  else if f % 2 = 0 then f else f + 1

/-- Python `round(q, n)` on an exact rational value. -/
def pyRound (n : ℕ) (q : ℚ) : ℚ :=
  (roundHalfEven (q * 10 ^ n) : ℚ) / 10 ^ n

/-! ## SHA-256 (`hashlib.sha256(text.encode('utf-8')).hexdigest()`)

Machine words are naturals reduced mod `2 ^ 32`. -/

/-- The 32-bit modulus. -/
def w32 : ℕ := 4294967296

/-- Rotate a 32-bit word right by `n` bits. -/
def rotr32 (n x : ℕ) : ℕ := (x >>> n) ||| ((x <<< (32 - n)) % w32)

/-- UTF-8 encoding of one code point as a byte list. -/
def utf8EncodeChar (c : Char) : List ℕ :=
  let n := c.toNat
  if n < 128 then [n]
  else if n < 2048 then
    [192 ||| (n >>> 6), 128 ||| (n &&& 63)]
  else if n < 65536 then
    [224 ||| (n >>> 12), 128 ||| ((n >>> 6) &&& 63), 128 ||| (n &&& 63)]
  else
    [240 ||| (n >>> 18), 128 ||| ((n >>> 12) &&& 63),
     128 ||| ((n >>> 6) &&& 63), 128 ||| (n &&& 63)]

/-- UTF-8 encoding of a string (`text.encode('utf-8')`). -/
def utf8Encode (l : List Char) : List ℕ :=
  (l.map utf8EncodeChar).foldr (· ++ ·) []

/-- SHA-256 round constants (decimal values of the standard table). -/
def sha256K : List ℕ :=
  [1116352408, 1899447441, 3049323471, 3921009573,
   961987163, 1508970993, 2453635748, 2870763221,
   3624381080, 310598401, 607225278, 1426881987,
   1925078388, 2162078206, 2614888103, 3248222580,
   3835390401, 4022224774, 264347078, 604807628,
   770255983, 1249150122, 1555081692, 1996064986,
   2554220882, 2821834349, 2952996808, 3210313671,
   3336571891, 3584528711, 113926993, 338241895,
   666307205, 773529912, 1294757372, 1396182291,
   1695183700, 1986661051, 2177026350, 2456956037,
   2730485921, 2820302411, 3259730800, 3345764771,
   3516065817, 3600352804, 4094571909, 275423344,
   430227734, 506948616, 659060556, 883997877,
   958139571, 1322822218, 1537002063, 1747873779,
   1955562222, 2024104815, 2227730452, 2361852424,
   2428436474, 2756734187, 3204031479, 3329325298]

/-- SHA-256 initial hash value (decimal values of the standard table). -/
def sha256H0 : List ℕ :=
  [1779033703, 3144134277, 1013904242, 2773480762,
   1359893119, 2600822924, 528734635, 1541459225]

/-- Pad a byte message to a multiple of 64 bytes (SHA-256 padding). -/
def sha256Pad (msg : List ℕ) : List ℕ :=
  let bitLen := msg.length * 8
  let zeros := (120 - (msg.length + 1) % 64) % 64
  msg ++ [128] ++ List.replicate zeros 0 ++
    [(bitLen >>> 56) % 256, (bitLen >>> 48) % 256, (bitLen >>> 40) % 256,
     (bitLen >>> 32) % 256, (bitLen >>> 24) % 256, (bitLen >>> 16) % 256,
     (bitLen >>> 8) % 256, bitLen % 256]

/-- Split a byte list into 64-byte chunks. -/
def chunk64 (l : List ℕ) : List (List ℕ) :=
  if h : l = [] then [] else l.take 64 :: chunk64 (l.drop 64)
termination_by l.length
decreasing_by
  simp only [List.length_drop]
  have := List.length_pos.mpr h
  omega

/-- Pack big-endian bytes into 32-bit words. -/
def bytesToWords : List ℕ → List ℕ
  | b0 :: b1 :: b2 :: b3 :: rest =>
    ((b0 <<< 24) ||| (b1 <<< 16) ||| (b2 <<< 8) ||| b3) :: bytesToWords rest
  | _ => []

/-- One extension step of the SHA-256 message schedule; `wrev` holds the words
produced so far, most recent first. -/
def schedStep (wrev : List ℕ) : ℕ :=
  let s0 :=
    rotr32 7 (wrev.getD 14 0) ^^^ rotr32 18 (wrev.getD 14 0) ^^^ (wrev.getD 14 0 >>> 3)
  let s1 :=
    rotr32 17 (wrev.getD 1 0) ^^^ rotr32 19 (wrev.getD 1 0) ^^^ (wrev.getD 1 0 >>> 10)
  (wrev.getD 15 0 + s0 + wrev.getD 6 0 + s1) % w32

/-- Extend the message schedule by `n` further words. -/
def buildSchedule (wrev : List ℕ) : ℕ → List ℕ
  | 0 => wrev
  | n + 1 => buildSchedule (schedStep wrev :: wrev) n

/-- One SHA-256 compression round. -/
def compressRound (st : ℕ × ℕ × ℕ × ℕ × ℕ × ℕ × ℕ × ℕ) (p : ℕ × ℕ) :
    ℕ × ℕ × ℕ × ℕ × ℕ × ℕ × ℕ × ℕ :=
  let (a, b, c, d, e, f, g, hh) := st
  let (wi, ki) := p
  let s1 := rotr32 6 e ^^^ rotr32 11 e ^^^ rotr32 25 e
  let ch := (e &&& f) ^^^ ((e ^^^ 0xffffffff) &&& g)
  let temp1 := (hh + s1 + ch + ki + wi) % w32
  let s0 := rotr32 2 a ^^^ rotr32 13 a ^^^ rotr32 22 a
  let maj := (a &&& b) ^^^ (a &&& c) ^^^ (b &&& c)
  let temp2 := (s0 + maj) % w32
  ((temp1 + temp2) % w32, a, b, c, (d + temp1) % w32, e, f, g)

/-- Process one 64-byte chunk into the running hash value. -/
def sha256Compress (hs : List ℕ) (chunk : List ℕ) : List ℕ :=
  let ws := (buildSchedule (bytesToWords chunk).reverse 48).reverse
  let stf := (ws.zip sha256K).foldl compressRound
    (hs.getD 0 0, hs.getD 1 0, hs.getD 2 0, hs.getD 3 0,
     hs.getD 4 0, hs.getD 5 0, hs.getD 6 0, hs.getD 7 0)
  match stf with
  | (a, b, c, d, e, f, g, hh) =>
    [(hs.getD 0 0 + a) % w32, (hs.getD 1 0 + b) % w32, (hs.getD 2 0 + c) % w32,
     (hs.getD 3 0 + d) % w32, (hs.getD 4 0 + e) % w32, (hs.getD 5 0 + f) % w32,
     (hs.getD 6 0 + g) % w32, (hs.getD 7 0 + hh) % w32]

/-- Lower-case hexadecimal digit. -/
def hexChar (n : ℕ) : Char :=
  if n < 10 then Char.ofNat (48 + n) else Char.ofNat (87 + n)

/-- Eight hex digits of a 32-bit word, most significant first. -/
def wordHex (x : ℕ) : List Char :=
  [hexChar ((x >>> 28) % 16), hexChar ((x >>> 24) % 16), hexChar ((x >>> 20) % 16),
   hexChar ((x >>> 16) % 16), hexChar ((x >>> 12) % 16), hexChar ((x >>> 8) % 16),
   hexChar ((x >>> 4) % 16), hexChar (x % 16)]

/-- SHA-256 hex digest of a byte message. -/
def sha256hex (msg : List ℕ) : List Char :=
  (((chunk64 (sha256Pad msg)).foldl sha256Compress sha256H0).map wordHex).foldr
    (· ++ ·) []

/-- app.py `hash_message`: SHA-256 hex digest of the UTF-8 encoded text. -/
def hash_message (text : List Char) : List Char :=
  sha256hex (utf8Encode text)

/-! ## Data model (models.py) -/

/-- The confidence tier strings LOW / MEDIUM / HIGH. -/
inductive Confidence where
  | LOW
  | MEDIUM
  | HIGH
deriving DecidableEq

/-- The feedback string `'CORRECT'`. -/
def correctChars : List Char := ['C', 'O', 'R', 'R', 'E', 'C', 'T']

/-- The feedback string `'INCORRECT'`. -/
def incorrectChars : List Char := ['I', 'N', 'C', 'O', 'R', 'R', 'E', 'C', 'T']

/-- The feedback string `'UNSURE'`. -/
def unsureChars : List Char := ['U', 'N', 'S', 'U', 'R', 'E']

/-- The allowed feedback values `['CORRECT', 'INCORRECT', 'UNSURE']`. -/
def feedbackValues : List (List Char) := [correctChars, incorrectChars, unsureChars]

/-- models.py `ScanHistory` row (claim-relevant columns; timestamps, IP and
user-agent metadata, model version and latency carry no claim content). -/
structure ScanRecord where
  id : ℕ
  user_id : Option (List Char)
  device_id : Option (List Char)
  message_text : List Char
  message_hash : List Char
  is_phishing : Bool
  risk_score : ℚ
  confidence_level : Confidence
  user_feedback : Option (List Char)
deriving DecidableEq

/-- models.py `UserStatistics` row (timestamp columns omitted). -/
structure UserStats where
  total_scans : ℕ
  phishing_detected : ℕ
  safe_messages : ℕ
  average_risk_score : ℚ
  highest_risk_score : ℚ
  feedback_provided : ℕ
  correct_predictions : ℕ
  incorrect_predictions : ℕ
deriving DecidableEq

/-- The `user_statistics` table: association list keyed by `user_id`. -/
abbrev StatsTable := List (List Char × UserStats)

/-- Primary-key lookup `UserStatistics.query.get(user_id)`. -/
def lookupStats : StatsTable → List Char → Option UserStats
  | [], _ => none
  | (k, v) :: rest, u => if k = u then some v else lookupStats rest u

/-- Write a row back (replace the keyed row, or insert it when absent). -/
def storeStats : StatsTable → List Char → UserStats → StatsTable
  | [], u, v => [(u, v)]
  | (k, w) :: rest, u, v =>
    if k = u then (u, v) :: rest else (k, w) :: storeStats rest u v

/-- The whole database: scan log, per-user statistics, autoincrement counter. -/
structure DBState where
  scans : List ScanRecord
  stats : StatsTable
  next_id : ℕ
deriving DecidableEq

/-- A freshly initialised database (SQLite autoincrement starts at 1). -/
def emptyDB : DBState := { scans := [], stats := [], next_id := 1 }

/-! ## Classifier (app.py `classify_message`)

The trained model is opaque in the source (`predict_proba` on the vectorised
text); it is passed in as `Option (List Char → ℚ)`, `none` meaning no model
is loaded.  `prediction_time_ms` is a wall-clock measurement and is not
represented. -/

/-- The trigger substring `'urgent'`. -/
def urgentChars : List Char := ['u', 'r', 'g', 'e', 'n', 't']

/-- The trigger substring `'click'`. -/
def clickChars : List Char := ['c', 'l', 'i', 'c', 'k']

/-- app.py `classify_message`, returning
`(is_phishing, risk_score, confidence)`. -/
def classify_message (model : Option (List Char → ℚ)) (text : List Char) :
    Bool × ℚ × Confidence :=
  match model with
  | none =>
    let risk_score : ℚ :=
      if substringOf urgentChars (text.map pyLower) ||
         substringOf clickChars (text.map pyLower)
      then mkRat 3 4 else mkRat 1 4
    let is_phishing := decide (risk_score > mkRat 1 2)
    let confidence : Confidence :=
      if risk_score > mkRat 7 10 ∨ risk_score < mkRat 3 10 then .HIGH
      else .MEDIUM
    (is_phishing, risk_score, confidence)
  | some predict =>
    let risk_score := predict text
    let is_phishing := decide (risk_score > mkRat 1 2)
    let confidence : Confidence :=
      if risk_score > mkRat 4 5 ∨ risk_score < mkRat 1 5 then .HIGH
      else if risk_score > mkRat 3 5 ∨ risk_score < mkRat 2 5 then .MEDIUM
      else .LOW
    (is_phishing, risk_score, confidence)

/-! ## Statistics aggregation (app.py `update_user_statistics`) -/

/-- app.py `update_user_statistics` acting on the statistics table
(`if not user_id: return` covers both the absent and the empty id). -/
def update_user_statistics : Option (List Char) → Bool → ℚ → StatsTable →
    StatsTable
  | none, _, _, t => t
  | some uid, is_phishing, risk_score, t =>
    if uid = [] then t
    else
      match lookupStats t uid with
      | none =>
        storeStats t uid
          { total_scans := 1
            phishing_detected := if is_phishing then 1 else 0
            safe_messages := if is_phishing then 0 else 1
            average_risk_score := risk_score
            highest_risk_score := risk_score
            feedback_provided := 0
            correct_predictions := 0
            incorrect_predictions := 0 }
      | some stats =>
        let total' := stats.total_scans + 1
        storeStats t uid
          { stats with
            total_scans := total'
            phishing_detected :=
              if is_phishing then stats.phishing_detected + 1
              else stats.phishing_detected
            safe_messages :=
              if is_phishing then stats.safe_messages
              else stats.safe_messages + 1
            average_risk_score :=
              (stats.average_risk_score * ((total' - 1 : ℕ) : ℚ) + risk_score) /
                (total' : ℚ)
            highest_risk_score :=
              if risk_score > stats.highest_risk_score then risk_score
              else stats.highest_risk_score }

/-! ## Request handlers (app.py `scan_message`, `submit_feedback`) -/

/-- The JSON body of a `/api/scan` request (absent keys are `none`). -/
structure ScanRequest where
  message : Option (List Char)
  user_id : Option (List Char)
  device_id : Option (List Char)

/-- Outcome reported by `/api/scan`. -/
inductive ScanResult where
  | ok (scan_id : ℕ) (is_phishing : Bool) (risk_score : ℚ) (confidence : Confidence)
  | missingMessage
  | emptyMessage
deriving DecidableEq

/-- app.py `scan_message`: validate, classify, insert the scan row, then
update the user's statistics.  The response's risk score is
`round(risk_score, 4)`. -/
def scan_message (model : Option (List Char → ℚ)) (req : ScanRequest)
    (st : DBState) : ScanResult × DBState :=
  match req.message with
  | none => (.missingMessage, st)
  | some raw =>
    let message_text := pyStrip raw
    if message_text = [] then (.emptyMessage, st)
    else
      match classify_message model message_text with
      | (is_phishing, risk_score, confidence) =>
        let record : ScanRecord :=
          { id := st.next_id
            user_id := req.user_id
            device_id := req.device_id
            message_text := message_text
            message_hash := hash_message message_text
            is_phishing := is_phishing
            risk_score := risk_score
            confidence_level := confidence
            user_feedback := none }
        let st1 : DBState :=
          { scans := st.scans ++ [record]
            stats := update_user_statistics req.user_id is_phishing risk_score st.stats
            next_id := st.next_id + 1 }
        (.ok record.id is_phishing (pyRound 4 risk_score) confidence, st1)

/-- Primary-key lookup `ScanHistory.query.get(scan_id)`. -/
def findScan : List ScanRecord → ℕ → Option ScanRecord
  | [], _ => none
  | r :: rest, sid => if r.id = sid then some r else findScan rest sid

/-- Store feedback on the row with the given id. -/
def setFeedback (scans : List ScanRecord) (sid : ℕ) (fb : List Char) :
    List ScanRecord :=
  scans.map fun r => if r.id = sid then { r with user_feedback := some fb } else r

/-- The JSON body of a `/api/feedback` request. -/
structure FeedbackRequest where
  scan_id : Option ℕ
  feedback : Option (List Char)

/-- Outcome reported by `/api/feedback`. -/
inductive FeedbackResult where
  | ok
  | missingFields
  | invalidFeedback
  | scanNotFound
deriving DecidableEq

/-- app.py `submit_feedback`: validate the feedback kind, record it on the
scan row, and update the scan's user's statistics when a row exists.
Python's `not scan_id` / `not feedback` truthiness checks make `0` and the
empty string behave like missing fields. -/
def submit_feedback (req : FeedbackRequest) (st : DBState) :
    FeedbackResult × DBState :=
  match req.scan_id, req.feedback with
  | some sid, some fb =>
    if sid = 0 ∨ fb = [] then (.missingFields, st)
    else if fb ∉ feedbackValues then (.invalidFeedback, st)
    else
      match findScan st.scans sid with
      | none => (.scanNotFound, st)
      | some scan =>
        let scans' := setFeedback st.scans sid fb
        let stats' :=
          match scan.user_id with
          | none => st.stats
          | some uid =>
            if uid = [] then st.stats
            else
              match lookupStats st.stats uid with
              | none => st.stats
              | some s =>
                storeStats st.stats uid
                  { s with
                    feedback_provided := s.feedback_provided + 1
                    correct_predictions :=
                      if fb = correctChars then s.correct_predictions + 1
                      else s.correct_predictions
                    incorrect_predictions :=
                      if fb = incorrectChars then s.incorrect_predictions + 1
                      else s.incorrect_predictions }
        (.ok, { st with scans := scans', stats := stats' })
  | _, _ => (.missingFields, st)

/-! ## Analytics (database_utils.py `AnalyticsEngine`) -/

/-- Number of scan rows with any feedback set. -/
def totalFeedbackCount (scans : List ScanRecord) : ℕ :=
  scans.countP fun r => r.user_feedback.isSome

/-- Number of scan rows with CORRECT feedback. -/
def correctCount (scans : List ScanRecord) : ℕ :=
  scans.countP fun r => decide (r.user_feedback = some correctChars)

/-- Number of scan rows with INCORRECT feedback. -/
def incorrectCount (scans : List ScanRecord) : ℕ :=
  scans.countP fun r => decide (r.user_feedback = some incorrectChars)

/-- Result shape of `get_model_accuracy_from_feedback`: either the
`accuracy: None` / `'No feedback data available'` dictionary or the
dictionary carrying the counts and the numeric accuracy percentage. -/
inductive AccuracyResult where
  | noData
  | data (total_feedback correct_predictions incorrect_predictions : ℕ)
      (accuracy : ℚ)
deriving DecidableEq

/-- database_utils.py `AnalyticsEngine.get_model_accuracy_from_feedback`. -/
def get_model_accuracy_from_feedback (scans : List ScanRecord) : AccuracyResult :=
  let total_feedback := totalFeedbackCount scans
  if total_feedback = 0 then .noData
  else
    let correct := correctCount scans
    let incorrect := incorrectCount scans
    let accuracy : ℚ :=
      if correct + incorrect > 0 then (correct : ℚ) / ((correct : ℚ) + incorrect)
      else 0
    .data total_feedback correct incorrect (pyRound 2 (accuracy * 100))

/-- One histogram bin of `get_risk_score_distribution` (the `'range'` label
string is presentation only and is kept as the numeric pair). -/
structure HistBin where
  lower : ℚ
  upper : ℚ
  count : ℕ
deriving DecidableEq

/-- database_utils.py `AnalyticsEngine.get_risk_score_distribution`: for each
`i < bins`, count the records with `lower <= risk_score < upper` where
`lower = i * (1/bins)` and `upper = (i+1) * (1/bins)`. -/
def get_risk_score_distribution (bins : ℕ) (scans : List ScanRecord) :
    List HistBin :=
  let bin_size : ℚ := 1 / (bins : ℚ)
  (List.range bins).map fun (i : ℕ) =>
    let lower := (i : ℚ) * bin_size
    let upper := ((i : ℚ) + 1) * bin_size
    { lower := lower
      upper := upper
      count := scans.countP fun r =>
        decide (lower ≤ r.risk_score ∧ r.risk_score < upper) }

/-- Total of the per-bin counts of a histogram. -/
def histTotal (l : List HistBin) : ℕ := (l.map HistBin.count).sum

/-! ## Event sequences -/

/-- One statistics-update event: the arguments `update_user_statistics`
receives for one recorded scan. -/
structure ScanEvent where
  user_id : Option (List Char)
  is_phishing : Bool
  risk_score : ℚ

/-- Fold a sequence of scan events through `update_user_statistics`. -/
def runScans (t : StatsTable) (evs : List ScanEvent) : StatsTable :=
  evs.foldl (fun t e => update_user_statistics e.user_id e.is_phishing e.risk_score t) t

/-- The risk scores recorded for one user, in order, among a sequence of
events that may interleave many users. -/
def userScores (uid : List Char) (evs : List ScanEvent) : List ℚ :=
  evs.filterMap fun e =>
    if e.user_id = some uid then some e.risk_score else none

/-- An API-level operation: one scan request or one feedback request. -/
inductive Op where
  | scan (req : ScanRequest)
  | feedback (req : FeedbackRequest)

/-- Apply one operation to the database. -/
def applyOp (model : Option (List Char → ℚ)) (st : DBState) : Op → DBState
  | .scan req => (scan_message model req st).2
  | .feedback req => (submit_feedback req st).2

/-- Run a sequence of operations against the database. -/
def runOps (model : Option (List Char → ℚ)) (st : DBState) (ops : List Op) :
    DBState :=
  ops.foldl (applyOp model) st

/-! ## Spec-side definitions used for refinement comparison -/

/-- Confidence tier of the model-backed path exactly as the spec words it:
HIGH if `risk_score > 0.8 or risk_score < 0.2`; else MEDIUM if
`risk_score > 0.6 or risk_score < 0.4`; else LOW. -/
def specModelTier (risk_score : ℚ) : Confidence :=
  if risk_score > mkRat 4 5 ∨ risk_score < mkRat 1 5 then .HIGH
  else if risk_score > mkRat 3 5 ∨ risk_score < mkRat 2 5 then .MEDIUM
  else .LOW

/-- All characters of the list are Python whitespace. -/
def AllSpace (l : List Char) : Prop := ∀ c ∈ l, isPySpace c = true

instance (l : List Char) : Decidable (AllSpace l) :=
  inferInstanceAs (Decidable (∀ c ∈ l, isPySpace c = true))

/-! ## Basic lemmas -/

/-- Evaluate `mkRat` into field notation. -/
theorem mkRat_cast_div (n : ℤ) (d : ℕ) : (mkRat n d : ℚ) = (n : ℚ) / (d : ℚ) := by
  rw [Rat.mkRat_eq_divInt, Rat.divInt_eq_div]
  norm_num

/-- Dropping whitespace runs through an all-whitespace block. -/
theorem dropWhile_allSpace_append (w x : List Char) (hw : AllSpace w) :
    (w ++ x).dropWhile isPySpace = x.dropWhile isPySpace := by
  induction w with
  | nil => rfl
  | cons c cs ih =>
    rw [List.cons_append, List.dropWhile_cons, if_pos (hw c (by simp))]
    exact ih fun a ha => hw a (by simp [ha])

/-- An all-whitespace list strips to nothing. -/
theorem dropWhile_allSpace (w : List Char) (hw : AllSpace w) :
    w.dropWhile isPySpace = [] := by
  have := dropWhile_allSpace_append w [] hw
  simpa using this

/-- How `dropWhile` interacts with an arbitrary appended tail. -/
theorem dropWhile_append_cases (p : Char → Bool) (x w : List Char) :
    (x ++ w).dropWhile p =
      if x.dropWhile p = [] then w.dropWhile p else x.dropWhile p ++ w := by
  induction x with
  | nil => simp
  | cons c cs ih =>
    cases hpc : p c with
    | true => simp [List.dropWhile_cons, hpc, ih]
    | false => simp [List.dropWhile_cons, hpc]

/-- Stripping ignores leading and trailing all-whitespace blocks. -/
theorem pyStrip_edge (w1 core w2 : List Char) (h1 : AllSpace w1)
    (h2 : AllSpace w2) : pyStrip (w1 ++ core ++ w2) = pyStrip core := by
  unfold pyStrip
  rw [List.append_assoc, dropWhile_allSpace_append _ _ h1,
    dropWhile_append_cases]
  by_cases hc : core.dropWhile isPySpace = []
  · rw [if_pos hc, hc, dropWhile_allSpace _ h2]
  · rw [if_neg hc, List.reverse_append,
      dropWhile_allSpace_append _ _ (fun c hc => h2 c (List.mem_reverse.mp hc))]

/-! ## Claims -/

/-- C2: with a model available the verdict is `risk_score > 0.5`, and the
confidence tier is the pure function of the score given by the spec's
three-threshold table, with strict inequalities at every boundary: any score
in `[0.4, 0.6]` is LOW, and the boundary scores 0.2, 0.4, 0.6, 0.8 give
MEDIUM, LOW, LOW, MEDIUM respectively. -/
theorem claim_C2 (predict : List Char → ℚ) (text : List Char) :
    classify_message (some predict) text =
      (decide (predict text > mkRat 1 2), predict text, specModelTier (predict text))
    ∧ (∀ r : ℚ, mkRat 2 5 ≤ r → r ≤ mkRat 3 5 → specModelTier r = .LOW)
    ∧ specModelTier (mkRat 1 5) = .MEDIUM
    ∧ specModelTier (mkRat 2 5) = .LOW
    ∧ specModelTier (mkRat 3 5) = .LOW
    ∧ specModelTier (mkRat 4 5) = .MEDIUM := by
  refine ⟨rfl, ?_, by decide, by decide, by decide, by decide⟩
  intro r h1 h2
  rw [mkRat_cast_div] at h1 h2
  have hns : ¬(r > mkRat 4 5 ∨ r < mkRat 1 5) := by
    rw [mkRat_cast_div, mkRat_cast_div]
    push_neg
    constructor <;> [linarith; linarith]
  have hns2 : ¬(r > mkRat 3 5 ∨ r < mkRat 2 5) := by
    rw [mkRat_cast_div, mkRat_cast_div]
    push_neg
    constructor <;> [linarith; linarith]
  simp only [specModelTier, if_neg hns, if_neg hns2]

/-- C2 witness: the theorem instantiated at the constant model 1/2 on the
empty text; the score 0.5 sits in the LOW gap. -/
theorem claim_C2_witness :
    specModelTier (mkRat 1 2) = .LOW ∧
    classify_message (some fun _ => mkRat 1 2) [] =
      (decide ((mkRat 1 2 : ℚ) > mkRat 1 2), (mkRat 1 2 : ℚ),
        specModelTier (mkRat 1 2)) :=
  ⟨(claim_C2 (fun _ => mkRat 1 2) []).2.1 (mkRat 1 2) (by decide) (by decide),
   (claim_C2 (fun _ => mkRat 1 2) []).1⟩

/-- The text of the spec's end-to-end heuristic scenario,
`'URGENT: click here now'`. -/
def urgentScenario : List Char :=
  ['U', 'R', 'G', 'E', 'N', 'T', ':', ' ', 'c', 'l', 'i', 'c', 'k',
   ' ', 'h', 'e', 'r', 'e', ' ', 'n', 'o', 'w']

/-- C3: with no model loaded the heuristic returns risk 0.75 exactly when the
lowercased text contains `'urgent'` or `'click'` and 0.25 otherwise, the
verdict is `risk_score > 0.5`, confidence is HIGH iff the score is above 0.7
or below 0.3 (else MEDIUM) and is never LOW; the scenario text
`'URGENT: click here now'` classifies as `(true, 0.75, HIGH)`. -/
theorem claim_C3 (text : List Char) :
    ∃ v r c, classify_message none text = (v, r, c)
    ∧ (r = mkRat 3 4 ↔
        (substringOf urgentChars (text.map pyLower) ||
         substringOf clickChars (text.map pyLower)) = true)
    ∧ (r = mkRat 1 4 ↔
        (substringOf urgentChars (text.map pyLower) ||
         substringOf clickChars (text.map pyLower)) = false)
    ∧ v = decide (r > mkRat 1 2)
    ∧ c = (if r > mkRat 7 10 ∨ r < mkRat 3 10 then .HIGH else .MEDIUM)
    ∧ c ≠ .LOW
    ∧ classify_message none urgentScenario = (true, mkRat 3 4, .HIGH) := by
  by_cases h :
      (substringOf urgentChars (text.map pyLower) ||
       substringOf clickChars (text.map pyLower)) = true
  · refine ⟨true, mkRat 3 4, .HIGH, ?_, ?_, ?_, by decide, by decide, by decide,
      by decide⟩
    · simp only [classify_message, h]
      decide
    · simp [h]
    · simp only [h]
      decide
  · rw [Bool.not_eq_true] at h
    refine ⟨false, mkRat 1 4, .HIGH, ?_, ?_, ?_, by decide, by decide, by decide,
      by decide⟩
    · simp only [classify_message, h]
      decide
    · simp only [h]
      decide
    · simp [h]

/-- C3 witness: the theorem instantiated at the scenario text, extracting the
concrete end-to-end classification. -/
theorem claim_C3_witness :
    classify_message none urgentScenario = (true, mkRat 3 4, .HIGH) := by
  obtain ⟨v, r, c, -, -, -, -, -, -, hconc⟩ := claim_C3 urgentScenario
  exact hconc

/-- C9: input errors mutate nothing — a scan with a missing message or a
message that strips to empty returns an error with the database unchanged,
and a feedback submission with a malformed feedback kind or an unknown scan
id returns a non-ok result with the database unchanged. -/
theorem claim_C9 (model : Option (List Char → ℚ)) (st : DBState) :
    (∀ req : ScanRequest, req.message = none →
      scan_message model req st = (.missingMessage, st))
    ∧ (∀ (req : ScanRequest) (raw : List Char), req.message = some raw →
        pyStrip raw = [] → scan_message model req st = (.emptyMessage, st))
    ∧ (∀ (sid : ℕ) (fb : List Char), fb ∉ feedbackValues →
        ∃ res, submit_feedback ⟨some sid, some fb⟩ st = (res, st) ∧
          res ≠ .ok)
    ∧ (∀ (sid : ℕ) (fb : List Char), findScan st.scans sid = none →
        ∃ res, submit_feedback ⟨some sid, some fb⟩ st = (res, st) ∧
          res ≠ .ok) := by
  refine ⟨?_, ?_, ?_, ?_⟩
  · intro req h
    simp only [scan_message, h]
  · intro req raw h hs
    simp only [scan_message, h, hs, if_pos]
  · intro sid fb hfb
    by_cases h0 : sid = 0 ∨ fb = []
    · exact ⟨.missingFields, by simp only [submit_feedback, if_pos h0],
        by decide⟩
    · exact ⟨.invalidFeedback,
        by simp only [submit_feedback, if_neg h0, if_pos hfb], by decide⟩
  · intro sid fb hfind
    by_cases h0 : sid = 0 ∨ fb = []
    · exact ⟨.missingFields, by simp only [submit_feedback, if_pos h0],
        by decide⟩
    · by_cases hfb : fb ∉ feedbackValues
      · exact ⟨.invalidFeedback,
          by simp only [submit_feedback, if_neg h0, if_pos hfb], by decide⟩
      · exact ⟨.scanNotFound,
          by simp only [submit_feedback, if_neg h0, if_neg hfb, hfind],
          by decide⟩

/-- C9 witness: a scan with no message field and a feedback with an unknown
kind both leave the fresh database untouched. -/
theorem claim_C9_witness :
    scan_message none ⟨none, none, none⟩ emptyDB = (.missingMessage, emptyDB)
    ∧ ∃ res, submit_feedback ⟨some 1, some ['X']⟩ emptyDB = (res, emptyDB) ∧
        res ≠ .ok :=
  ⟨(claim_C9 none emptyDB).1 ⟨none, none, none⟩ rfl,
   (claim_C9 none emptyDB).2.2.1 1 ['X'] (by decide)⟩

/-- C10: a scan stores the whitespace-stripped text, its fingerprint is the
SHA-256 hex digest of the stripped text, and two scan requests whose texts
differ only by leading/trailing whitespace around the same core produce
identical results and identical final states. -/
theorem claim_C10 (model : Option (List Char → ℚ)) (st : DBState) :
    (∀ (req : ScanRequest) (raw : List Char), req.message = some raw →
      pyStrip raw ≠ [] →
      ∃ rec : ScanRecord,
        (scan_message model req st).2.scans = st.scans ++ [rec]
        ∧ rec.message_text = pyStrip raw
        ∧ rec.message_hash = hash_message (pyStrip raw)
        ∧ (rec.is_phishing, rec.risk_score, rec.confidence_level) =
            classify_message model (pyStrip raw))
    ∧ (∀ (raw1 raw2 core w1 w2 w3 w4 : List Char)
        (u d : Option (List Char)),
        AllSpace w1 → AllSpace w2 → AllSpace w3 → AllSpace w4 →
        raw1 = w1 ++ core ++ w2 → raw2 = w3 ++ core ++ w4 →
        scan_message model ⟨some raw1, u, d⟩ st =
          scan_message model ⟨some raw2, u, d⟩ st) := by
  constructor
  · intro req raw hmsg hne
    rcases hcm : classify_message model (pyStrip raw) with ⟨ph, rs, cf⟩
    refine ⟨{ id := st.next_id
              user_id := req.user_id
              device_id := req.device_id
              message_text := pyStrip raw
              message_hash := hash_message (pyStrip raw)
              is_phishing := ph
              risk_score := rs
              confidence_level := cf
              user_feedback := none }, ?_, rfl, rfl, rfl⟩
    simp only [scan_message, hmsg, if_neg hne, hcm]
  · intro raw1 raw2 core w1 w2 w3 w4 u d h1 h2 h3 h4 e1 e2
    have hs : pyStrip raw1 = pyStrip raw2 := by
      rw [e1, e2, pyStrip_edge _ _ _ h1 h2, pyStrip_edge _ _ _ h3 h4]
    simp only [scan_message, hs]

/-- C10 witness: `' hi'` and `'hi '` scan identically, and the stored record
for `' hi'` holds the stripped text and its fingerprint. -/
theorem claim_C10_witness :
    (∃ rec : ScanRecord,
      (scan_message none ⟨some [' ', 'h', 'i'], none, none⟩ emptyDB).2.scans =
        emptyDB.scans ++ [rec]
      ∧ rec.message_text = pyStrip [' ', 'h', 'i']
      ∧ rec.message_hash = hash_message (pyStrip [' ', 'h', 'i'])
      ∧ (rec.is_phishing, rec.risk_score, rec.confidence_level) =
          classify_message none (pyStrip [' ', 'h', 'i']))
    ∧ scan_message none ⟨some [' ', 'h', 'i'], none, none⟩ emptyDB =
        scan_message none ⟨some ['h', 'i', ' '], none, none⟩ emptyDB :=
  ⟨(claim_C10 none emptyDB).1 ⟨some [' ', 'h', 'i'], none, none⟩
      [' ', 'h', 'i'] rfl (by decide),
   (claim_C10 none emptyDB).2 [' ', 'h', 'i'] ['h', 'i', ' '] ['h', 'i']
      [' '] [] [] [' '] none none (by decide) (by decide) (by decide)
      (by decide) rfl rfl⟩

/-- Banker's rounding of an integer is the integer itself. -/
theorem roundHalfEven_intCast (z : ℤ) : roundHalfEven (z : ℚ) = z := by
  unfold roundHalfEven
  rw [Int.floor_intCast]
  rw [if_pos]
  rw [mkRat_cast_div]
  norm_num

/-- Rounding an integer value to any number of decimals is the identity. -/
theorem pyRound_intCast (n : ℕ) (z : ℤ) : pyRound n (z : ℚ) = (z : ℚ) := by
  unfold pyRound
  have h : ((z : ℚ) * 10 ^ n) = ((z * 10 ^ n : ℤ) : ℚ) := by push_cast; ring
  rw [h, roundHalfEven_intCast]
  push_cast
  field_simp

/-- A scan-log state whose only feedback is UNSURE. -/
def unsureOnlyScan : ScanRecord :=
  { id := 1
    user_id := none
    device_id := none
    message_text := ['x']
    message_hash := []
    is_phishing := false
    risk_score := mkRat 1 4
    confidence_level := .HIGH
    user_feedback := some unsureChars }

/-- C4 counterexample: with a single UNSURE feedback record,
`correct + incorrect = 0` yet the code returns the numeric accuracy `0.0`
(the dictionary `total=1, correct=0, incorrect=0, accuracy=0`), not the
explicit no-data result the claim requires. -/
theorem claim_C4_counterexample :
    correctCount [unsureOnlyScan] + incorrectCount [unsureOnlyScan] = 0
    ∧ get_model_accuracy_from_feedback [unsureOnlyScan] = .data 1 0 0 0
    ∧ get_model_accuracy_from_feedback [unsureOnlyScan] ≠ .noData := by
  have h1 : totalFeedbackCount [unsureOnlyScan] = 1 := by decide
  have h2 : correctCount [unsureOnlyScan] = 0 := by decide
  have h3 : incorrectCount [unsureOnlyScan] = 0 := by decide
  have hmain : get_model_accuracy_from_feedback [unsureOnlyScan] = .data 1 0 0 0 := by
    simp only [get_model_accuracy_from_feedback, h1, h2, h3]
    norm_num
    simpa using pyRound_intCast 2 0
  exact ⟨by rw [h2, h3], hmain, by rw [hmain]; decide⟩

/-- C4 (amended): the accuracy computation returns
`correct / (correct + incorrect) * 100` whenever some CORRECT or INCORRECT
feedback exists, reports the explicit no-data result only when no feedback
at all exists, returns the numeric accuracy 0 (not no-data) when the only
feedback present is UNSURE, 100 when all CORRECT/INCORRECT feedback is
CORRECT, and 0 when all of it is INCORRECT. -/
theorem claim_C4 (scans : List ScanRecord) :
    (totalFeedbackCount scans = 0 →
      get_model_accuracy_from_feedback scans = .noData)
    ∧ (totalFeedbackCount scans ≠ 0 →
        correctCount scans + incorrectCount scans ≠ 0 →
        get_model_accuracy_from_feedback scans =
          .data (totalFeedbackCount scans) (correctCount scans)
            (incorrectCount scans)
            (pyRound 2 ((correctCount scans : ℚ) /
              ((correctCount scans : ℚ) + (incorrectCount scans : ℚ)) * 100)))
    ∧ (totalFeedbackCount scans ≠ 0 → incorrectCount scans = 0 →
        correctCount scans ≠ 0 →
        get_model_accuracy_from_feedback scans =
          .data (totalFeedbackCount scans) (correctCount scans) 0 100)
    ∧ (totalFeedbackCount scans ≠ 0 → correctCount scans = 0 →
        incorrectCount scans ≠ 0 →
        get_model_accuracy_from_feedback scans =
          .data (totalFeedbackCount scans) 0 (incorrectCount scans) 0)
    ∧ (totalFeedbackCount scans ≠ 0 → correctCount scans = 0 →
        incorrectCount scans = 0 →
        get_model_accuracy_from_feedback scans =
          .data (totalFeedbackCount scans) 0 0 0) := by
  refine ⟨?_, ?_, ?_, ?_, ?_⟩
  · intro h
    simp only [get_model_accuracy_from_feedback, h, if_pos]
  · intro ht hci
    simp only [get_model_accuracy_from_feedback, if_neg ht]
    rw [if_pos (Nat.pos_of_ne_zero hci)]
  · intro ht hi hc
    simp only [get_model_accuracy_from_feedback, if_neg ht, hi]
    rw [if_pos (by omega)]
    have hcq : ((correctCount scans : ℚ) + (0 : ℕ)) = (correctCount scans : ℚ) := by
      push_cast
      ring
    have hc0 : ((correctCount scans : ℚ)) ≠ 0 := by
      exact_mod_cast hc
    have hval : (correctCount scans : ℚ) / ((correctCount scans : ℚ) + ((0 : ℕ) : ℚ)) * 100 =
        ((100 : ℤ) : ℚ) := by
      rw [hcq, div_self hc0]
      norm_num
    rw [hval, pyRound_intCast]
    norm_num
  · intro ht hc hi
    simp only [get_model_accuracy_from_feedback, if_neg ht, hc]
    rw [if_pos (by omega)]
    have hval : (((0 : ℕ) : ℚ)) / (((0 : ℕ) : ℚ) + (incorrectCount scans : ℚ)) * 100 =
        ((0 : ℤ) : ℚ) := by
      push_cast
      rw [zero_div]
      norm_num
    rw [hval, pyRound_intCast]
    norm_num
  · intro ht hc hi
    simp only [get_model_accuracy_from_feedback, if_neg ht, hc, hi]
    norm_num
    simpa using pyRound_intCast 2 0

/-- C4 witness: one CORRECT and one INCORRECT feedback give accuracy 50,
and the all-CORRECT branch gives accuracy 100. -/
theorem claim_C4_witness :
    get_model_accuracy_from_feedback
      [{ unsureOnlyScan with id := 1, user_feedback := some correctChars },
       { unsureOnlyScan with id := 2, user_feedback := some incorrectChars }] =
      .data 2 1 1 (pyRound 2 ((1 : ℚ) / ((1 : ℚ) + (1 : ℚ)) * 100))
    ∧ get_model_accuracy_from_feedback
        [{ unsureOnlyScan with id := 3, user_feedback := some correctChars }] =
      .data 1 1 0 100 := by
  constructor
  · have h := (claim_C4
      [{ unsureOnlyScan with id := 1, user_feedback := some correctChars },
       { unsureOnlyScan with id := 2, user_feedback := some incorrectChars }]).2.1
      (by decide) (by decide)
    have ht : totalFeedbackCount
      [{ unsureOnlyScan with id := 1, user_feedback := some correctChars },
       { unsureOnlyScan with id := 2, user_feedback := some incorrectChars }] = 2 := by
      decide
    have hc : correctCount
      [{ unsureOnlyScan with id := 1, user_feedback := some correctChars },
       { unsureOnlyScan with id := 2, user_feedback := some incorrectChars }] = 1 := by
      decide
    have hi : incorrectCount
      [{ unsureOnlyScan with id := 1, user_feedback := some correctChars },
       { unsureOnlyScan with id := 2, user_feedback := some incorrectChars }] = 1 := by
      decide
    rw [ht, hc, hi] at h
    exact h
  · have h := (claim_C4
      [{ unsureOnlyScan with id := 3, user_feedback := some correctChars }]).2.2.1
      (by decide) (by decide) (by decide)
    have ht : totalFeedbackCount
      [{ unsureOnlyScan with id := 3, user_feedback := some correctChars }] = 1 := by
      decide
    have hc : correctCount
      [{ unsureOnlyScan with id := 3, user_feedback := some correctChars }] = 1 := by
      decide
    rw [ht, hc] at h
    exact h

/-! ## Histogram lemmas for C5 -/

/-- Sums of pointwise-added maps split. -/
theorem sum_map_add {α : Type} (l : List α) (f g : α → ℕ) :
    (l.map fun x => f x + g x).sum = (l.map f).sum + (l.map g).sum := by
  induction l with
  | nil => rfl
  | cons a l ih =>
    simp only [List.map_cons, List.sum_cons, ih]
    omega

/-- `countP` as a sum of indicator values. -/
theorem countP_eq_sum_map {α : Type} (p : α → Bool) (l : List α) :
    l.countP p = (l.map fun x => if p x then 1 else 0).sum := by
  induction l with
  | nil => rfl
  | cons a l ih =>
    rw [List.countP_cons, List.map_cons, List.sum_cons, ih]
    omega

/-- The histogram total as a sum of per-bin membership counts. -/
theorem histTotal_eq (bins : ℕ) (l : List ScanRecord) :
    histTotal (get_risk_score_distribution bins l) =
      ((List.range bins).map (fun (i : ℕ) => l.countP (fun r =>
        decide ((i : ℚ) * (1 / (bins : ℚ)) ≤ r.risk_score ∧
          r.risk_score < ((i : ℚ) + 1) * (1 / (bins : ℚ)))))).sum := by
  unfold histTotal get_risk_score_distribution
  rw [List.map_map]
  rfl

/-- The empty log gives an all-zero histogram. -/
theorem histTotal_nil (bins : ℕ) :
    histTotal (get_risk_score_distribution bins []) = 0 := by
  rw [histTotal_eq]
  apply List.sum_eq_zero
  intro x hx
  rw [List.mem_map] at hx
  obtain ⟨i, -, rfl⟩ := hx
  exact List.countP_nil _

/-- Adding one record adds its bin-membership count to the histogram total. -/
theorem histTotal_cons (bins : ℕ) (r : ScanRecord) (scans : List ScanRecord) :
    histTotal (get_risk_score_distribution bins (r :: scans)) =
      (List.range bins).countP
        (fun (i : ℕ) => decide ((i : ℚ) * (1 / (bins : ℚ)) ≤ r.risk_score ∧
          r.risk_score < ((i : ℚ) + 1) * (1 / (bins : ℚ))))
      + histTotal (get_risk_score_distribution bins scans) := by
  rw [histTotal_eq, histTotal_eq]
  simp only [List.countP_cons]
  rw [sum_map_add, countP_eq_sum_map]
  omega

/-- Counting one value in `List.range`. -/
theorem countP_range_eq (a n : ℕ) :
    (List.range n).countP (fun i => decide (i = a)) = if a < n then 1 else 0 := by
  induction n with
  | zero => simp
  | succ n ih =>
    rw [List.range_succ, List.countP_append, ih]
    by_cases h : a < n
    · rw [if_pos h, if_pos (by omega)]
      have : (List.countP (fun i => decide (i = a)) [n]) = 0 := by
        simp only [List.countP_cons, List.countP_nil]
        rw [if_neg (by simp; omega)]
      omega
    · by_cases h2 : a = n
      · subst h2
        simp
      · rw [if_neg h, if_neg (by omega)]
        simp only [List.countP_cons, List.countP_nil]
        rw [if_neg (by simp; omega)]

/-- Exactly one half-open bin `[i/bins, (i+1)/bins)` contains a given score
in `[0, 1)`, and no bin contains a score outside `[0, 1)`. -/
theorem bin_membership_count (bins : ℕ) (hb : 1 ≤ bins) (s : ℚ) :
    (List.range bins).countP
      (fun (i : ℕ) => decide ((i : ℚ) * (1 / (bins : ℚ)) ≤ s ∧
        s < ((i : ℚ) + 1) * (1 / (bins : ℚ)))) =
      if 0 ≤ s ∧ s < 1 then 1 else 0 := by
  have hbQ : (0 : ℚ) < (bins : ℚ) := by
    exact_mod_cast Nat.lt_of_lt_of_le Nat.zero_lt_one hb
  have key : ∀ i : ℕ,
      (((i : ℚ) * (1 / (bins : ℚ)) ≤ s ∧
        s < ((i : ℚ) + 1) * (1 / (bins : ℚ))) ↔ ((i : ℤ) = ⌊s * (bins : ℚ)⌋)) := by
    intro i
    have h1 : (i : ℚ) * (1 / (bins : ℚ)) ≤ s ↔ ((i : ℤ) : ℚ) ≤ s * (bins : ℚ) := by
      rw [mul_one_div, div_le_iff₀ hbQ]
      norm_num
    have h2 : s < ((i : ℚ) + 1) * (1 / (bins : ℚ)) ↔
        s * (bins : ℚ) < ((i : ℤ) : ℚ) + 1 := by
      rw [mul_one_div, lt_div_iff₀ hbQ]
      norm_num
    rw [h1, h2]
    constructor
    · intro h
      have hle : (i : ℤ) ≤ ⌊s * (bins : ℚ)⌋ := Int.le_floor.mpr h.1
      have hlt : ⌊s * (bins : ℚ)⌋ < (i : ℤ) + 1 := by
        rw [Int.floor_lt]
        push_cast
        exact h.2
      omega
    · intro h
      refine ⟨Int.le_floor.mp (le_of_eq h), ?_⟩
      have hlt := Int.lt_floor_add_one (s * (bins : ℚ))
      rw [← h] at hlt
      push_cast at hlt
      exact hlt
  have hfe : (fun (i : ℕ) => decide ((i : ℚ) * (1 / (bins : ℚ)) ≤ s ∧
      s < ((i : ℚ) + 1) * (1 / (bins : ℚ)))) =
      fun (i : ℕ) => decide ((i : ℤ) = ⌊s * (bins : ℚ)⌋) := by
    funext i
    exact decide_eq_decide.mpr (key i)
  rw [hfe]
  by_cases hk : 0 ≤ ⌊s * (bins : ℚ)⌋
  · have hfe2 : (fun (i : ℕ) => decide ((i : ℤ) = ⌊s * (bins : ℚ)⌋)) =
        fun (i : ℕ) => decide (i = ⌊s * (bins : ℚ)⌋.toNat) := by
      funext i
      exact decide_eq_decide.mpr (by omega)
    rw [hfe2, countP_range_eq]
    have hfl : (0 : ℚ) ≤ s * (bins : ℚ) := by
      have h0 : (0 : ℚ) ≤ (⌊s * (bins : ℚ)⌋ : ℚ) := by exact_mod_cast hk
      have := Int.floor_le (s * (bins : ℚ))
      linarith
    have hs0 : 0 ≤ s := by
      by_contra hcon
      push_neg at hcon
      nlinarith
    have hiff : (⌊s * (bins : ℚ)⌋.toNat < bins) ↔ (0 ≤ s ∧ s < 1) := by
      constructor
      · intro h
        have h2 : ⌊s * (bins : ℚ)⌋ < (bins : ℤ) := by omega
        rw [Int.floor_lt] at h2
        push_cast at h2
        have hs1 : s < 1 := by
          by_contra hcon
          push_neg at hcon
          nlinarith
        exact ⟨hs0, hs1⟩
      · intro h
        have hmul : s * (bins : ℚ) < (bins : ℚ) := by nlinarith [h.2]
        have h2 : ⌊s * (bins : ℚ)⌋ < (bins : ℤ) := by
          rw [Int.floor_lt]
          push_cast
          exact hmul
        omega
    by_cases hin : 0 ≤ s ∧ s < 1
    · rw [if_pos (hiff.mpr hin), if_pos hin]
    · rw [if_neg (fun hcon => hin (hiff.mp hcon)), if_neg hin]
  · have hz : (List.range bins).countP
        (fun (i : ℕ) => decide ((i : ℤ) = ⌊s * (bins : ℚ)⌋)) = 0 := by
      rw [List.countP_eq_zero]
      intro i _
      simp only [decide_eq_true_eq]
      omega
    rw [hz]
    have hneg : ¬(0 ≤ s ∧ s < 1) := by
      intro hcon
      apply hk
      apply Int.le_floor.mpr
      push_cast
      nlinarith [hcon.1]
    rw [if_neg hneg]

/-- A scan record carrying the boundary risk score 1.0. -/
def fullRiskScan : ScanRecord :=
  { id := 1
    user_id := none
    device_id := none
    message_text := ['y']
    message_hash := []
    is_phishing := true
    risk_score := 1
    confidence_level := .HIGH
    user_feedback := none }

/-- C5 counterexample: with the default ten bins and one record whose risk
score is exactly 1.0 (in `[0,1]`), every bin tests `lower <= score < upper`
— including the final bin — so the bin counts sum to 0, not to the record
count 1: the final bin is not closed on the right. -/
theorem claim_C5_counterexample :
    (0 : ℚ) ≤ fullRiskScan.risk_score ∧ fullRiskScan.risk_score ≤ 1
    ∧ histTotal (get_risk_score_distribution 10 [fullRiskScan]) = 0
    ∧ [fullRiskScan].length = 1 := by
  refine ⟨by norm_num [fullRiskScan], by norm_num [fullRiskScan], ?_, rfl⟩
  rw [histTotal_cons, histTotal_nil, bin_membership_count 10 (by norm_num)]
  norm_num [fullRiskScan]

/-- C5 (amended): every bin of the histogram, the final one included, is the
half-open interval `[lower, upper)`, so the bin counts sum to the number of
records with `0 <= risk_score < 1`; for logs whose scores all lie in
`[0, 1]`, the sum equals the total record count minus the number of records
scoring exactly 1.0 (so it equals the total only when no score is 1.0). -/
theorem claim_C5 (bins : ℕ) (hb : 1 ≤ bins) (scans : List ScanRecord) :
    histTotal (get_risk_score_distribution bins scans) =
      scans.countP (fun r => decide (0 ≤ r.risk_score ∧ r.risk_score < 1))
    ∧ ((∀ r ∈ scans, 0 ≤ r.risk_score ∧ r.risk_score ≤ 1) →
        histTotal (get_risk_score_distribution bins scans) +
          scans.countP (fun r => decide (r.risk_score = 1)) = scans.length) := by
  have part1 : histTotal (get_risk_score_distribution bins scans) =
      scans.countP (fun r => decide (0 ≤ r.risk_score ∧ r.risk_score < 1)) := by
    induction scans with
    | nil => rw [histTotal_nil, List.countP_nil]
    | cons r l ih =>
      rw [histTotal_cons, bin_membership_count bins hb, ih, List.countP_cons]
      by_cases hc : 0 ≤ r.risk_score ∧ r.risk_score < 1
      · simp only [hc, if_true, decide_eq_true_eq, if_pos hc]
        omega
      · simp only [hc, if_false, decide_eq_true_eq, if_neg hc]
        simp [hc]
  refine ⟨part1, fun hall => ?_⟩
  rw [part1]
  have hsplit := List.length_eq_countP_add_countP
    (p := fun r : ScanRecord => decide (0 ≤ r.risk_score ∧ r.risk_score < 1))
    scans
  rw [hsplit]
  congr 1
  apply List.countP_congr
  intro r hr
  have h01 := hall r hr
  simp only [decide_eq_true_eq, Bool.not_eq_true', decide_eq_false_iff_not]
  constructor
  · intro h1 hcon
    rw [h1] at hcon
    exact absurd hcon.2 (by norm_num)
  · intro hnot
    by_contra hne
    have : r.risk_score < 1 := lt_of_le_of_ne h01.2 hne
    exact hnot ⟨h01.1, this⟩

/-- C5 witness: a two-bin histogram over one mid-range record has bin counts
summing to the record count. -/
theorem claim_C5_witness :
    histTotal (get_risk_score_distribution 2 [unsureOnlyScan]) =
      [unsureOnlyScan].countP
        (fun r => decide (0 ≤ r.risk_score ∧ r.risk_score < 1))
    ∧ histTotal (get_risk_score_distribution 2 [unsureOnlyScan]) +
        [unsureOnlyScan].countP (fun r => decide (r.risk_score = 1)) =
        [unsureOnlyScan].length :=
  ⟨(claim_C5 2 (by decide) [unsureOnlyScan]).1,
   (claim_C5 2 (by decide) [unsureOnlyScan]).2 (by decide)⟩

/-! ## Association-list lemmas for the statistics table -/

/-- Looking up the key just stored finds the stored row. -/
theorem lookupStats_storeStats_self (t : StatsTable) (u : List Char)
    (v : UserStats) : lookupStats (storeStats t u v) u = some v := by
  induction t with
  | nil => simp [storeStats, lookupStats]
  | cons p rest ih =>
    obtain ⟨k, w⟩ := p
    by_cases hk : k = u
    · simp [storeStats, hk, lookupStats]
    · simp [storeStats, hk, lookupStats, ih]

/-- Storing under one key leaves every other key's lookup unchanged. -/
theorem lookupStats_storeStats_ne (t : StatsTable) (u u' : List Char)
    (v : UserStats) (h : u ≠ u') :
    lookupStats (storeStats t u v) u' = lookupStats t u' := by
  induction t with
  | nil => simp [storeStats, lookupStats, h]
  | cons p rest ih =>
    obtain ⟨k, w⟩ := p
    by_cases hk : k = u
    · subst hk
      simp [storeStats, lookupStats, h]
    · simp [storeStats, hk, lookupStats, ih]

/-- A statistics update for one user leaves other users' rows unchanged. -/
theorem lookupStats_update_other (uopt : Option (List Char)) (ph : Bool)
    (r : ℚ) (t : StatsTable) (u : List Char) (h : uopt ≠ some u) :
    lookupStats (update_user_statistics uopt ph r t) u = lookupStats t u := by
  unfold update_user_statistics
  cases uopt with
  | none => rfl
  | some v =>
    have hv : v ≠ u := fun hvu => h (by rw [hvu])
    by_cases hve : v = []
    · simp [hve]
    · simp only [if_neg hve]
      cases lookupStats t v with
      | none => exact lookupStats_storeStats_ne t v u _ hv
      | some s => exact lookupStats_storeStats_ne t v u _ hv

/-- A found row is a member of the table. -/
theorem lookupStats_mem (t : StatsTable) (u : List Char) (s : UserStats)
    (h : lookupStats t u = some s) : (u, s) ∈ t := by
  induction t with
  | nil => simp [lookupStats] at h
  | cons p rest ih =>
    obtain ⟨k, w⟩ := p
    rw [lookupStats] at h
    by_cases hk : k = u
    · rw [if_pos hk] at h
      injection h with h
      subst h
      subst hk
      exact List.mem_cons_self _ _
    · rw [if_neg hk] at h
      exact List.mem_cons_of_mem _ (ih h)

/-! ## The running maximum -/

/-- The maximum of a list of scores (0 for the empty list, which is only a
placeholder: it is used on non-empty lists). -/
def listMax : List ℚ → ℚ
  | [] => 0
  | x :: xs => xs.foldl max x

/-- A left fold of `max` lands on its seed or on a list element. -/
theorem foldl_max_mem (xs : List ℚ) : ∀ a, xs.foldl max a ∈ a :: xs := by
  induction xs with
  | nil => intro a; simp
  | cons x xs ih =>
    intro a
    rw [List.foldl_cons]
    rcases List.mem_cons.mp (ih (max a x)) with h1 | h2
    · rcases max_choice a x with hm | hm
      · exact List.mem_cons.mpr (Or.inl (h1.trans hm))
      · exact List.mem_cons.mpr
          (Or.inr (List.mem_cons.mpr (Or.inl (h1.trans hm))))
    · exact List.mem_cons.mpr (Or.inr (List.mem_cons.mpr (Or.inr h2)))

/-- A left fold of `max` bounds its seed and every element. -/
theorem le_foldl_max (xs : List ℚ) :
    ∀ a, a ≤ xs.foldl max a ∧ ∀ y ∈ xs, y ≤ xs.foldl max a := by
  induction xs with
  | nil =>
    intro a
    exact ⟨le_refl a, by simp⟩
  | cons x xs ih =>
    intro a
    rw [List.foldl_cons]
    obtain ⟨h1, h2⟩ := ih (max a x)
    refine ⟨le_trans (le_max_left a x) h1, ?_⟩
    intro y hy
    rcases List.mem_cons.mp hy with rfl | hmem
    · exact le_trans (le_max_right a y) h1
    · exact h2 y hmem

/-- Appending one score takes the running maximum with it. -/
theorem listMax_append_singleton (l : List ℚ) (hl : l ≠ []) (r : ℚ) :
    listMax (l ++ [r]) = max (listMax l) r := by
  cases l with
  | nil => exact absurd rfl hl
  | cons x xs =>
    simp only [listMax, List.cons_append, List.foldl_append, List.foldl_cons,
      List.foldl_nil]

/-- The maximum of a non-empty list is an element of it. -/
theorem listMax_mem (l : List ℚ) (hl : l ≠ []) : listMax l ∈ l := by
  cases l with
  | nil => exact absurd rfl hl
  | cons x xs => exact foldl_max_mem xs x

/-- The maximum of a list bounds every element. -/
theorem le_listMax (l : List ℚ) (a : ℚ) (ha : a ∈ l) : a ≤ listMax l := by
  cases l with
  | nil => simp at ha
  | cons x xs =>
    rcases List.mem_cons.mp ha with rfl | hmem
    · exact (le_foldl_max xs a).1
    · exact (le_foldl_max xs x).2 a hmem

/-! ## The running-statistics invariant (C1 and C7) -/

/-- Relation between a user's statistics row and the scores recorded for that
user so far: the row exists exactly when a score was recorded, and then its
counter, running mean, and running maximum agree with direct recomputation
from the full score list. -/
def MeanMaxInv (uid : List Char) (t : StatsTable) (sc : List ℚ) : Prop :=
  (lookupStats t uid = none → sc = []) ∧
  (∀ s, lookupStats t uid = some s →
    sc ≠ [] ∧ s.total_scans = sc.length ∧
    s.average_risk_score = sc.sum / (sc.length : ℚ) ∧
    s.highest_risk_score = listMax sc)

/-- Folding any event sequence through `update_user_statistics` preserves the
recomputation invariant for every (non-empty) user id, regardless of how the
user's events interleave with other users' events. -/
theorem stats_run_master (uid : List Char) (huid : uid ≠ []) :
    ∀ (evs : List ScanEvent) (t : StatsTable) (sc : List ℚ),
      MeanMaxInv uid t sc →
      MeanMaxInv uid (runScans t evs) (sc ++ userScores uid evs) := by
  intro evs
  induction evs with
  | nil =>
    intro t sc h
    simpa [runScans, userScores] using h
  | cons e evs ih =>
    intro t sc h
    have hstep : runScans t (e :: evs) =
        runScans (update_user_statistics e.user_id e.is_phishing e.risk_score t)
          evs := rfl
    rw [hstep]
    by_cases hu : e.user_id = some uid
    · have hus : userScores uid (e :: evs) =
          e.risk_score :: userScores uid evs := by
        simp [userScores, List.filterMap_cons, hu]
      rw [hus]
      have hassoc : sc ++ e.risk_score :: userScores uid evs =
          (sc ++ [e.risk_score]) ++ userScores uid evs := by
        rw [List.append_assoc]
        rfl
      rw [hassoc]
      apply ih
      rw [hu]
      show MeanMaxInv uid
        (update_user_statistics (some uid) e.is_phishing e.risk_score t)
        (sc ++ [e.risk_score])
      rw [update_user_statistics, if_neg huid]
      rcases hl : lookupStats t uid with - | s
      · have hsc : sc = [] := h.1 hl
        subst hsc
        constructor
        · rw [lookupStats_storeStats_self]
          intro hcon
          exact absurd hcon (by simp)
        · intro s' hs'
          rw [lookupStats_storeStats_self] at hs'
          injection hs' with hs'
          subst hs'
          refine ⟨by simp, by simp, by simp, by simp [listMax]⟩
      · obtain ⟨hne, htot, havg, hmax⟩ := h.2 s hl
        constructor
        · rw [lookupStats_storeStats_self]
          intro hcon
          exact absurd hcon (by simp)
        · intro s' hs'
          rw [lookupStats_storeStats_self] at hs'
          injection hs' with hs'
          subst hs'
          have hlen0 : sc.length ≠ 0 := fun hcon =>
            hne (List.length_eq_zero.mp hcon)
          have hlenQ : (sc.length : ℚ) ≠ 0 := by exact_mod_cast hlen0
          refine ⟨by simp, ?_, ?_, ?_⟩
          · simp [htot]
          · show (s.average_risk_score * ((s.total_scans + 1 - 1 : ℕ) : ℚ) +
                e.risk_score) / ((s.total_scans + 1 : ℕ) : ℚ) =
              (sc ++ [e.risk_score]).sum / (((sc ++ [e.risk_score]).length : ℕ) : ℚ)
            rw [Nat.add_sub_cancel, htot, havg, List.sum_append,
              List.length_append]
            push_cast
            rw [div_mul_cancel₀ _ hlenQ]
            norm_num
          · show (if e.risk_score > s.highest_risk_score then e.risk_score
                else s.highest_risk_score) = listMax (sc ++ [e.risk_score])
            rw [hmax, listMax_append_singleton sc hne]
            rcases le_or_lt e.risk_score (listMax sc) with hle | hlt
            · rw [if_neg (not_lt.mpr hle), max_eq_left hle]
            · rw [if_pos hlt, max_eq_right (le_of_lt hlt)]
    · have hus : userScores uid (e :: evs) = userScores uid evs := by
        simp [userScores, List.filterMap_cons, hu]
      rw [hus]
      apply ih
      have hlook := lookupStats_update_other e.user_id e.is_phishing
        e.risk_score t uid hu
      exact ⟨fun hn => h.1 (by rw [← hlook]; exact hn),
        fun s hs => h.2 s (by rw [← hlook]; exact hs)⟩

/-- C1: after any event sequence (interleaving any users), a user's stored
running mean equals the exact arithmetic mean `sum(scores)/N` of the scores
recorded for that user, with `total_scans = N`. -/
theorem claim_C1 (uid : List Char) (huid : uid ≠ []) (evs : List ScanEvent)
    (hne : userScores uid evs ≠ []) :
    ∃ s, lookupStats (runScans [] evs) uid = some s
      ∧ s.total_scans = (userScores uid evs).length
      ∧ s.average_risk_score =
          (userScores uid evs).sum / ((userScores uid evs).length : ℚ) := by
  have hbase : MeanMaxInv uid [] [] :=
    ⟨fun _ => rfl, fun s hs => by simp [lookupStats] at hs⟩
  have h := stats_run_master uid huid evs [] [] hbase
  rw [List.nil_append] at h
  rcases hl : lookupStats (runScans [] evs) uid with - | s
  · exact absurd (h.1 hl) hne
  · obtain ⟨-, htot, havg, -⟩ := h.2 s hl
    exact ⟨s, rfl, htot, havg⟩

/-- C1 witness: one scan for user `u` interleaved between two scans of
another user gives mean 1/2 over the single recorded score. -/
theorem claim_C1_witness :
    ∃ s, lookupStats
        (runScans []
          [⟨some ['w'], true, mkRat 3 4⟩,
           ⟨some ['u'], true, mkRat 1 2⟩,
           ⟨some ['w'], false, mkRat 1 4⟩]) ['u'] = some s
      ∧ s.total_scans =
          (userScores ['u']
            [⟨some ['w'], true, mkRat 3 4⟩,
             ⟨some ['u'], true, mkRat 1 2⟩,
             ⟨some ['w'], false, mkRat 1 4⟩]).length
      ∧ s.average_risk_score =
          (userScores ['u']
            [⟨some ['w'], true, mkRat 3 4⟩,
             ⟨some ['u'], true, mkRat 1 2⟩,
             ⟨some ['w'], false, mkRat 1 4⟩]).sum /
          ((userScores ['u']
            [⟨some ['w'], true, mkRat 3 4⟩,
             ⟨some ['u'], true, mkRat 1 2⟩,
             ⟨some ['w'], false, mkRat 1 4⟩]).length : ℚ) :=
  claim_C1 ['u'] (by decide) _ (by decide)

/-- C7: after any non-empty event sequence for a user, the stored
`highest_risk_score` is one of the recorded scores and bounds all of them —
it is exactly their maximum. -/
theorem claim_C7 (uid : List Char) (huid : uid ≠ []) (evs : List ScanEvent)
    (hne : userScores uid evs ≠ []) :
    ∃ s, lookupStats (runScans [] evs) uid = some s
      ∧ s.highest_risk_score ∈ userScores uid evs
      ∧ ∀ x ∈ userScores uid evs, x ≤ s.highest_risk_score := by
  have hbase : MeanMaxInv uid [] [] :=
    ⟨fun _ => rfl, fun s hs => by simp [lookupStats] at hs⟩
  have h := stats_run_master uid huid evs [] [] hbase
  rw [List.nil_append] at h
  rcases hl : lookupStats (runScans [] evs) uid with - | s
  · exact absurd (h.1 hl) hne
  · obtain ⟨-, -, -, hmax⟩ := h.2 s hl
    refine ⟨s, rfl, ?_, ?_⟩
    · rw [hmax]
      exact listMax_mem _ hne
    · intro x hx
      rw [hmax]
      exact le_listMax _ x hx

/-- C7 witness: two scans for user `v` give highest score 3/4. -/
theorem claim_C7_witness :
    ∃ s, lookupStats
        (runScans []
          [⟨some ['v'], false, mkRat 1 4⟩,
           ⟨some ['v'], true, mkRat 3 4⟩]) ['v'] = some s
      ∧ s.highest_risk_score ∈ userScores ['v']
          [⟨some ['v'], false, mkRat 1 4⟩, ⟨some ['v'], true, mkRat 3 4⟩]
      ∧ ∀ x ∈ userScores ['v']
          [⟨some ['v'], false, mkRat 1 4⟩, ⟨some ['v'], true, mkRat 3 4⟩],
          x ≤ s.highest_risk_score :=
  claim_C7 ['v'] (by decide) _ (by decide)

/-! ## The counter invariant (C6) -/

/-- One statistics row balances: the scan total equals phishing plus safe. -/
def statsInvRow (s : UserStats) : Prop :=
  s.total_scans = s.phishing_detected + s.safe_messages

/-- Storing a good row into a good table keeps every row good. -/
theorem storeStats_forall (P : UserStats → Prop) (t : StatsTable)
    (u : List Char) (v : UserStats) (ht : ∀ p ∈ t, P p.2) (hv : P v) :
    ∀ p ∈ storeStats t u v, P p.2 := by
  induction t with
  | nil =>
    intro p hp
    simp only [storeStats, List.mem_singleton] at hp
    subst hp
    exact hv
  | cons q rest ih =>
    obtain ⟨k, w⟩ := q
    intro p hp
    rw [storeStats] at hp
    by_cases hk : k = u
    · rw [if_pos hk] at hp
      rcases List.mem_cons.mp hp with rfl | hmem
      · exact hv
      · exact ht p (List.mem_cons_of_mem _ hmem)
    · rw [if_neg hk] at hp
      rcases List.mem_cons.mp hp with rfl | hmem
      · exact ht _ (List.mem_cons_self _ _)
      · exact ih (fun q hq => ht q (List.mem_cons_of_mem _ hq)) p hmem

/-- `update_user_statistics` preserves the counter invariant: creation sets
`1 = phishing + safe` and an update bumps the total and exactly one of the
two counters. -/
theorem update_preserves_statsInv (uopt : Option (List Char)) (ph : Bool)
    (r : ℚ) (t : StatsTable) (ht : ∀ p ∈ t, statsInvRow p.2) :
    ∀ p ∈ update_user_statistics uopt ph r t, statsInvRow p.2 := by
  cases uopt with
  | none => exact ht
  | some uid =>
    rw [update_user_statistics]
    by_cases he : uid = []
    · rw [if_pos he]
      exact ht
    · rw [if_neg he]
      rcases hl : lookupStats t uid with - | s

      · apply storeStats_forall _ _ _ _ ht
        cases ph <;> simp [statsInvRow]
      · apply storeStats_forall _ _ _ _ ht
        have hrow := ht _ (lookupStats_mem t uid s hl)
        simp only [statsInvRow] at hrow ⊢
        cases ph <;> simp <;> omega

/-- A scan request preserves the counter invariant of the statistics table. -/
theorem scan_preserves_statsInv (model : Option (List Char → ℚ))
    (req : ScanRequest) (st : DBState)
    (ht : ∀ p ∈ st.stats, statsInvRow p.2) :
    ∀ p ∈ (scan_message model req st).2.stats, statsInvRow p.2 := by
  rcases req with ⟨msg, u, d⟩
  cases msg with
  | none => exact ht
  | some raw =>
    simp only [scan_message]
    by_cases hs : pyStrip raw = []
    · rw [if_pos hs]
      exact ht
    · rw [if_neg hs]
      rcases hcm : classify_message model (pyStrip raw) with ⟨ph, rs, cf⟩
      exact update_preserves_statsInv u ph rs st.stats ht

/-- A feedback request preserves the counter invariant: it touches only the
feedback counters of one row. -/
theorem feedback_preserves_statsInv (req : FeedbackRequest) (st : DBState)
    (ht : ∀ p ∈ st.stats, statsInvRow p.2) :
    ∀ p ∈ (submit_feedback req st).2.stats, statsInvRow p.2 := by
  rcases req with ⟨sid?, fb?⟩
  cases sid? with
  | none => exact ht
  | some sid =>
    cases fb? with
    | none => exact ht
    | some fb =>
      simp only [submit_feedback]
      by_cases h0 : sid = 0 ∨ fb = []
      · rw [if_pos h0]
        exact ht
      · rw [if_neg h0]
        by_cases hfb : fb ∉ feedbackValues
        · rw [if_pos hfb]
          exact ht
        · rw [if_neg hfb]
          rcases hfind : findScan st.scans sid with - | scan
          · simp only [hfind]
            exact ht
          · simp only [hfind]
            cases hu : scan.user_id with
            | none =>
              simp only [hu]
              exact ht
            | some uid =>
              by_cases he : uid = []
              · simp only [hu, if_pos he]
                exact ht
              · simp only [hu, if_neg he]
                rcases hl : lookupStats st.stats uid with - | s
                · simp only [hl]
                  exact ht
                · simp only [hl]
                  apply storeStats_forall _ _ _ _ ht
                  have hrow := ht _ (lookupStats_mem st.stats uid s hl)
                  simpa [statsInvRow] using hrow

/-- Running any operation sequence preserves the counter invariant. -/
theorem runOps_preserves_statsInv (model : Option (List Char → ℚ))
    (ops : List Op) :
    ∀ st : DBState, (∀ p ∈ st.stats, statsInvRow p.2) →
      ∀ p ∈ (runOps model st ops).stats, statsInvRow p.2 := by
  induction ops with
  | nil => intro st h; exact h
  | cons op ops ih =>
    intro st h
    cases op with
    | scan req => exact ih _ (scan_preserves_statsInv model req st h)
    | feedback req => exact ih _ (feedback_preserves_statsInv req st h)

/-- C6: after any sequence of scan and feedback operations from a fresh
database, every stored user-statistics row satisfies
`total_scans = phishing_detected + safe_messages`. -/
theorem claim_C6 (model : Option (List Char → ℚ)) (ops : List Op)
    (uid : List Char) (s : UserStats)
    (h : lookupStats (runOps model emptyDB ops).stats uid = some s) :
    s.total_scans = s.phishing_detected + s.safe_messages :=
  runOps_preserves_statsInv model ops emptyDB (by simp [emptyDB])
    (uid, s) (lookupStats_mem _ _ _ h)

/-- C6 witness: one heuristic scan for user `u` creates the row
`(1, 0, 1, ...)`, which balances. -/
theorem claim_C6_witness :
    (⟨1, 0, 1, mkRat 1 4, mkRat 1 4, 0, 0, 0⟩ : UserStats).total_scans =
      (⟨1, 0, 1, mkRat 1 4, mkRat 1 4, 0, 0, 0⟩ : UserStats).phishing_detected +
      (⟨1, 0, 1, mkRat 1 4, mkRat 1 4, 0, 0, 0⟩ : UserStats).safe_messages :=
  claim_C6 none [.scan ⟨some ['h', 'i'], some ['u'], none⟩] ['u']
    ⟨1, 0, 1, mkRat 1 4, mkRat 1 4, 0, 0, 0⟩ (by decide)

/-- C8: a valid feedback submission on a found scan succeeds; when the
scan's user has a statistics row it bumps `feedback_provided` by one and
bumps `correct_predictions` / `incorrect_predictions` exactly when the kind
is CORRECT / INCORRECT (so UNSURE bumps only `feedback_provided`); when the
scan has no (non-empty) user id or the user has no row, the statistics table
is untouched. -/
theorem claim_C8 (st : DBState) (sid : ℕ) (hsid : sid ≠ 0) (fb : List Char)
    (hfb : fb ∈ feedbackValues) (scan : ScanRecord)
    (hfind : findScan st.scans sid = some scan) :
    (submit_feedback ⟨some sid, some fb⟩ st).1 = .ok
    ∧ (∀ uid s, scan.user_id = some uid → uid ≠ [] →
        lookupStats st.stats uid = some s →
        lookupStats (submit_feedback ⟨some sid, some fb⟩ st).2.stats uid =
          some { s with
            feedback_provided := s.feedback_provided + 1
            correct_predictions :=
              if fb = correctChars then s.correct_predictions + 1
              else s.correct_predictions
            incorrect_predictions :=
              if fb = incorrectChars then s.incorrect_predictions + 1
              else s.incorrect_predictions })
    ∧ (scan.user_id = none →
        (submit_feedback ⟨some sid, some fb⟩ st).2.stats = st.stats)
    ∧ (∀ uid, scan.user_id = some uid → uid = [] →
        (submit_feedback ⟨some sid, some fb⟩ st).2.stats = st.stats)
    ∧ (∀ uid, scan.user_id = some uid → lookupStats st.stats uid = none →
        (submit_feedback ⟨some sid, some fb⟩ st).2.stats = st.stats) := by
  have hfbne : fb ≠ [] := by
    fin_cases hfb <;> decide
  have h0 : ¬(sid = 0 ∨ fb = []) := by
    rintro (hc | hc)
    · exact hsid hc
    · exact hfbne hc
  have hmem : ¬fb ∉ feedbackValues := not_not_intro hfb
  refine ⟨?_, ?_, ?_, ?_, ?_⟩
  · simp only [submit_feedback, if_neg h0, if_neg hmem, hfind]
  · intro uid s huid hune hl
    simp only [submit_feedback, if_neg h0, if_neg hmem, hfind, huid,
      if_neg hune, hl]
    exact lookupStats_storeStats_self _ _ _
  · intro huid
    simp only [submit_feedback, if_neg h0, if_neg hmem, hfind, huid]
  · intro uid huid hue
    simp only [submit_feedback, if_neg h0, if_neg hmem, hfind, huid,
      if_pos hue]
  · intro uid huid hl
    by_cases hue : uid = []
    · simp only [submit_feedback, if_neg h0, if_neg hmem, hfind, huid,
        if_pos hue]
    · simp only [submit_feedback, if_neg h0, if_neg hmem, hfind, huid,
        if_neg hue, hl]

/-- The scan row the C8 witness submits feedback on. -/
def demoScanRecord : ScanRecord :=
  { id := 1
    user_id := some ['u']
    device_id := none
    message_text := ['h', 'i']
    message_hash := []
    is_phishing := false
    risk_score := mkRat 1 4
    confidence_level := .HIGH
    user_feedback := none }

/-- The statistics row of the C8 witness's user before the feedback. -/
def demoStats : UserStats := ⟨1, 0, 1, mkRat 1 4, mkRat 1 4, 0, 0, 0⟩

/-- A one-scan, one-user database for the C8 witness. -/
def feedbackDemoState : DBState :=
  { scans := [demoScanRecord]
    stats := [(['u'], demoStats)]
    next_id := 2 }

/-- C8 witness: INCORRECT feedback on the demo scan succeeds and bumps
`feedback_provided` and `incorrect_predictions` only. -/
theorem claim_C8_witness :
    (submit_feedback ⟨some 1, some incorrectChars⟩ feedbackDemoState).1 = .ok
    ∧ lookupStats (submit_feedback ⟨some 1, some incorrectChars⟩
        feedbackDemoState).2.stats ['u'] =
        some { demoStats with
          feedback_provided := demoStats.feedback_provided + 1
          correct_predictions :=
            if incorrectChars = correctChars then
              demoStats.correct_predictions + 1
            else demoStats.correct_predictions
          incorrect_predictions :=
            if incorrectChars = incorrectChars then
              demoStats.incorrect_predictions + 1
            else demoStats.incorrect_predictions } :=
  ⟨(claim_C8 feedbackDemoState 1 (by decide) incorrectChars (by decide)
      demoScanRecord (by decide)).1,
   (claim_C8 feedbackDemoState 1 (by decide) incorrectChars (by decide)
      demoScanRecord (by decide)).2.1 ['u'] demoStats rfl (by decide)
      (by decide)⟩

end PhishGuard
